import Mathlib

/-!
Verification development for the `nest_utils` analysis module (`utils.py`).

The module is a flat set of stateless numeric functions over arrays of spike
times and firing rates.  We embed the functions the specification talks about
(`fr_window_step`, `calculate_fr`, `fitness_function`, `calculate_threshold`)
as executable Lean functions over exact rationals.  Python floats are modelled
by `ℚ`; a numpy NaN (produced, e.g., by the mean of an empty selection) is
modelled by `none : Option ℚ`, with comparisons against NaN evaluating to
`false` as in IEEE / numpy semantics.  External library routines
(`scipy.signal.cwt`, `scipy.ndimage.gaussian_filter`) are external
collaborator code: functions that consume their output take that output as an
explicit argument.
-/

/-- Python `int(...)` applied to an exact rational: truncation toward zero
(`int(2.7) = 2`, `int(-2.7) = -2`). -/
def pyint (q : ℚ) : ℤ := if q < 0 then -(Rat.floor (-q)) else Rat.floor q

/-- The executable `Rat.floor` agrees with the mathematical floor. -/
theorem ratFloor_eq_floor (q : ℚ) : Rat.floor q = ⌊q⌋ := by
  rw [Rat.floor_def']; exact (Rat.floor_def).symm

/-- Restatement of `pyint` through the mathematical floor, for computation
with `norm_num`. -/
theorem pyint_def (q : ℚ) : pyint q = if q < 0 then -⌊-q⌋ else ⌊q⌋ := by
  rw [pyint, ratFloor_eq_floor, ratFloor_eq_floor]

/-- On nonnegative arguments Python truncation is the floor. -/
theorem pyint_eq_floor {q : ℚ} (h : 0 ≤ q) : pyint q = ⌊q⌋ := by
  rw [pyint, if_neg (not_lt.mpr h), ratFloor_eq_floor]

/-- Numpy index resolution for a (possibly negative) integer index into an
array of length `n`: a negative index `i` addresses element `n + i`.
(An index outside `[-n, n)` raises `IndexError` in numpy; the claims below
only ever involve indices in range, where this model is exact.) -/
def pyIdx (i : ℤ) (n : ℕ) : ℕ := if 0 ≤ i then i.toNat else ((n : ℤ) + i).toNat

/-- Spike raster of one population, as produced by `get_spike_values`:
parallel lists of spike times and global neuron ids, plus the population
name. -/
structure Raster where
  times : List ℚ
  neurons_idx : List ℤ
  compartment_name : String

/-- Result dictionary of `fr_window_step` for one population
(`{'times': …, 'instant_fr': …, 'name': …}`). -/
structure FrWindowResult where
  times : List ℚ
  instant_fr : List (List ℚ)
  name : String

/-- `fr_window_step`, line 225: index in the firing array of the last window
containing the spike, `int((time - start_time + window/2.) / step)`. -/
def last_window_index (window step start_time time : ℚ) : ℤ :=
  pyint ((time - start_time + window / 2) / step)

/-- `fr_window_step`, line 226: time from the spike to the beginning of the
last window containing it,
`time - (start_time + last_window_index * step - window/2.)`. -/
def dt_of (window step start_time time : ℚ) : ℚ :=
  time - (start_time + (last_window_index window step start_time time : ℚ) * step - window / 2)

/-- `fr_window_step`, line 227: how many windows before the last one also
contain the spike, `int((window - dt) / step)`. -/
def how_many_wind_before (window step start_time time : ℚ) : ℤ :=
  pyint ((window - dt_of window step start_time time) / step)

/-- The list of bin indices of the firing matrix incremented for one spike in
`fr_window_step` (lines 228–231): `last_window_index - j` for
`j in range(how_many_wind_before + 1)`, keeping only indices with
`0 <= elem < elem_len`. -/
def spikeBins (window step start_time : ℚ) (elem_len : ℕ) (time : ℚ) : List ℤ :=
  ((List.range (how_many_wind_before window step start_time time + 1).toNat).map
      (fun j : ℕ => last_window_index window step start_time time - (j : ℤ))).filter
    (fun e => decide (0 ≤ e) && decide (e < (elem_len : ℤ)))

/-- `fr_window_step`, line 221: number of time bins,
`int((sim_time - start_time) / step) + 1`.  (If this were nonpositive the
Python code would fail at `np.zeros`; all claims assume the usual
`start_time ≤ sim_time`, `0 < step`.) -/
def elem_len (sim_time start_time step : ℚ) : ℕ :=
  (pyint ((sim_time - start_time) / step) + 1).toNat

/-- Entry `(r, e)` of the `firing` matrix after the spike loop of
`fr_window_step` (lines 222–231): the number of spikes whose (shifted) neuron
index resolves to row `r` and whose bin list contains `e`.  The loop only
performs commuting increments, so the final matrix counts exactly these
spikes. -/
def firing_count (spikes : List (ℤ × ℚ)) (pop_dim : ℕ) (window step start_time : ℚ)
    (eln : ℕ) (r e : ℕ) : ℕ :=
  spikes.countP (fun p =>
    decide (pyIdx p.1 pop_dim = r) && decide ((e : ℤ) ∈ spikeBins window step start_time eln p.2))

/-- Body of the `for raster in raster_list` loop of `fr_window_step`
(lines 215–240) for one raster: shifted spike indices `i = neurons_idx - first`,
firing matrix divided by `window / 1000`, and the bin-center times
`np.linspace(start_time, start_time + step*(elem_len-1), elem_len)`,
whose `j`-th element is `start_time + j * step`. -/
def fr_window_step_single (raster : Raster) (first last : ℤ)
    (sim_time window step start_time : ℚ) : FrWindowResult :=
  let spikes := List.zip (raster.neurons_idx.map (fun ix => ix - first)) raster.times
  let pop_dim := (last - first + 1).toNat
  let eln := elem_len sim_time start_time step
  { times := (List.range eln).map (fun j : ℕ => start_time + (j : ℚ) * step)
    instant_fr := (List.range pop_dim).map (fun r => (List.range eln).map
      (fun e => (firing_count spikes pop_dim window step start_time eln r e : ℚ) / (window / 1000)))
    name := raster.compartment_name }

/-- `fr_window_step` (lines 205–242): map the single-raster computation over
the raster list, looking the id range of each population up in
`pop_dim_ids`. -/
def fr_window_step (raster_list : List Raster) (pop_dim_ids : String → ℤ × ℤ)
    (sim_time window step start_time : ℚ) : List FrWindowResult :=
  raster_list.map (fun raster =>
    fr_window_step_single raster (pop_dim_ids raster.compartment_name).1
      (pop_dim_ids raster.compartment_name).2 sim_time window step start_time)

/-- Replace the `i`-th element of a list by `f` of it (used for the
`ISI_list[idx] = ISI_list[idx] + [ISI]` update in `calculate_fr`). -/
def updAt : List α → ℕ → (α → α) → List α
  | [], _, _ => []
  | a :: l, 0, f => f a :: l
  | a :: l, n + 1, f => a :: updAt l n f

/-- Python `tt < t_end` where `t_end` may be `np.inf` (modelled by `none`,
the default when `calculate_fr` is called with `t_end=None`). -/
def ltEnd (tt : ℚ) : Option ℚ → Prop
  | none => True
  | some e => tt < e

instance (tt : ℚ) (o : Option ℚ) : Decidable (ltEnd tt o) :=
  match o with
  | none => isTrue trivial
  | some e => inferInstanceAs (Decidable (tt < e))

/-- Mutable state of the spike loop in `calculate_fr` (lines 176–187):
`t_prev` holds the last spike time per neuron (`-1` = no spike seen yet),
`ISI_list` the inter-spike intervals collected per neuron. -/
structure FrState where
  t_prev : List ℚ
  ISI_list : List (List ℚ)

/-- One iteration of the `for tt, idx in zip(...)` loop of `calculate_fr`
(lines 178–187).  The event carries the spike time and the shifted index
`neurons_idx - first_id - 1`; a negative index wraps around as in numpy. -/
def frStep (t_start : ℚ) (t_end : Option ℚ) (st : FrState) (ev : ℚ × ℤ) : FrState :=
  if t_start < ev.1 ∧ ltEnd ev.1 t_end then
    let i := pyIdx ev.2 st.t_prev.length
    if st.t_prev.getD i 0 = -1 then { st with t_prev := st.t_prev.set i ev.1 }
    else
      let ISI := ev.1 - st.t_prev.getD i 0
      if ISI ≠ 0 then
        { t_prev := st.t_prev.set i ev.1, ISI_list := updAt st.ISI_list i (fun l => l ++ [ISI]) }
      else st
  else st

/-- The per-neuron ISI lists accumulated by `calculate_fr` over one raster
(lines 176–187), starting from `t_prev = -np.ones(pop_dim)` and `pop_dim`
empty ISI lists. -/
def calculate_fr_ISIs (raster : Raster) (first : ℤ) (pop_dim : ℕ)
    (t_start : ℚ) (t_end : Option ℚ) : FrState :=
  (List.zip raster.times (raster.neurons_idx.map (fun ix => ix - first - 1))).foldl
    (frStep t_start t_end) ⟨List.replicate pop_dim (-1), List.replicate pop_dim []⟩

/-- `calculate_fr`, line 189: per-neuron inverse mean ISI in Hz,
`1000 / (sum(elem)/len(elem)) if len(elem) != 0 else 0`. -/
def inv_mean_ISI (ISI_list : List (List ℚ)) : List ℚ :=
  ISI_list.map (fun elem => if elem.length ≠ 0 then 1000 / (elem.sum / (elem.length : ℚ)) else 0)

/-- Numpy `.mean()` of a nonempty array, as used on `inv_mean_ISI`
(line 190).  (For an empty array numpy yields NaN; `calculate_fr` only
computes the mean over `pop_dim ≥ 1` entries.) -/
def listMean (l : List ℚ) : ℚ := l.sum / (l.length : ℚ)

/-- Python `round(x, 2)`.  (Python rounds halves to even on binary floats;
on exact rationals we use the standard round, which only differs on exact
half-multiples of 1/100 — immaterial to the claims, which concern the
value 0.) -/
def round2 (q : ℚ) : ℚ := ((round (q * 100) : ℤ) : ℚ) / 100

/-- `calculate_fr` (lines 161–202), firing-rate output only (the
`return_CV_name=False` branch): for each raster, the rounded mean over
neurons of the inverse mean ISI. -/
def calculate_fr (raster_list : List Raster) (pop_dim_ids : String → ℤ × ℤ)
    (t_start : ℚ) (t_end : Option ℚ) : List ℚ :=
  raster_list.map (fun raster =>
    let first := (pop_dim_ids raster.compartment_name).1
    let last := (pop_dim_ids raster.compartment_name).2
    let pop_dim := (last - first + 1).toNat
    round2 (listMean (inv_mean_ISI
      (calculate_fr_ISIs raster first pop_dim t_start t_end).ISI_list)))

/-- Numpy `.mean()` over the reals (used for the per-neuron CV where a
standard deviation, hence a square root, appears). -/
noncomputable def listMeanR (l : List ℚ) : ℝ :=
  (l.map (fun x => (x : ℝ))).sum / (l.length : ℝ)

/-- Numpy `.std()` of a list of rationals, over the reals:
`sqrt(mean((x - mean)^2))`. -/
noncomputable def listStd (l : List ℚ) : ℝ :=
  Real.sqrt ((l.map (fun x => ((x : ℝ) - listMeanR l) ^ 2)).sum / (l.length : ℝ))

/-- `calculate_fr`, line 193: per-neuron coefficient of variation,
`sublist.std() / sublist.mean() if len(sublist) != 0 else 0`. -/
noncomputable def CV_el (sublist : List ℚ) : ℝ :=
  if sublist.length ≠ 0 then listStd sublist / listMeanR sublist else 0

/-- `fitness_function` (lines 312–383).  The wavelet stage (lines 347–369)
is a chain of external scipy routines (`signal.cwt` with a Morlet wavelet,
then a Gaussian-kernel dot product); its scalar result `conv` is taken as an
argument.  The firing-rate accuracy stage (lines 371–379) is embedded
exactly: `dist = fr - fr_target`, optionally multiplied elementwise by
`fr_weights`, squared elementwise and summed; the result is
`-fitness_Cereb + conv / 2`. -/
def fitness_function (fr fr_target : List ℚ) (conv : ℚ) (fr_weights : Option (List ℚ)) : ℚ :=
  let dist := List.zipWith (fun a b => a - b) fr fr_target
  let dist := match fr_weights with
    | some w => List.zipWith (fun d wi => d * wi) dist w
    | none => dist
  let dist := dist.map (fun d => d ^ 2)
  let fitness_Cereb := dist.sum
  let fitness_fourier := conv / 2;
  -fitness_Cereb + fitness_fourier

/-- Numpy boolean-mask selection `arr[np.logical_and(times <= b, times > a)]`
keeping both the time and the value of each selected sample
(`calculate_threshold` pairs `times` positionally with the smoothed trace). -/
def maskSel (times instf : List ℚ) (a b : ℚ) : List (ℚ × ℚ) :=
  (List.zip times instf).filter (fun p => decide (a < p.1) && decide (p.1 ≤ b))

/-- Numpy `.mean()` with NaN made explicit: the mean of an empty selection
is NaN (`none`). -/
def npMean (l : List ℚ) : Option ℚ :=
  if l.length = 0 then none else some (l.sum / (l.length : ℚ))

/-- Numpy `x < 0.` where `x` may be NaN (`none`): any comparison with NaN
is false. -/
def nanLt0 : Option ℚ → Bool
  | none => false
  | some d => decide (d < 0)

/-- `calculate_threshold`, line 511: running cumulative mean scaled by `m`,
`np.cumsum(v) / np.cumsum(np.ones(len(v))) * m`. -/
def cumMean (l : List ℚ) (m : ℚ) : List ℚ :=
  (List.range l.length).map (fun j => (l.take (j + 1)).sum / ((j : ℚ) + 1) * m)

/-- Python slice `l[-n:]`: the last `n` elements for `n > 0`, the whole list
for `n = 0` (since `l[-0:] = l[0:]`). -/
def pySliceLast (l : List α) (n : ℕ) : List α :=
  if n = 0 then l else l.drop (l.length - n)

/-- Trial start `t0 = settling_time + k * sim_time` (line 478). -/
def trial_t0 (settling_time sim_time : ℚ) (k : ℕ) : ℚ :=
  settling_time + (k : ℚ) * sim_time

/-- Baseline selection of trial `k` (lines 482–484): samples with
`t0 < t ≤ t0 + MF_time + 100`. -/
def trialSel1 (times instf : List ℚ) (settling_time sim_time MF_time : ℚ) (k : ℕ) :
    List (ℚ × ℚ) :=
  maskSel times instf (trial_t0 settling_time sim_time k)
    (trial_t0 settling_time sim_time k + MF_time + 100)

/-- Baseline mean rate of trial `k` (line 486); NaN (`none`) when the
selection is empty. -/
def trialBaseline (times instf : List ℚ) (settling_time sim_time MF_time : ℚ) (k : ℕ) :
    Option ℚ :=
  npMean ((trialSel1 times instf settling_time sim_time MF_time k).map Prod.snd)

/-- Linear threshold of trial `k` (line 487): `baseline * m1 + q`. -/
def trialThreshold (times instf : List ℚ) (settling_time sim_time MF_time m1 q : ℚ)
    (k : ℕ) : Option ℚ :=
  (trialBaseline times instf settling_time sim_time MF_time k).map (fun b => b * m1 + q)

/-- Post-stimulus selection of trial `k` (lines 492–494 and identically
518–520): samples with `t0 + MF_time + 100 < t ≤ t0 + IO_time`. -/
def trialSel2 (times instf : List ℚ) (settling_time sim_time MF_time IO_time : ℚ)
    (k : ℕ) : List (ℚ × ℚ) :=
  maskSel times instf (trial_t0 settling_time sim_time k + MF_time + 100)
    (trial_t0 settling_time sim_time k + IO_time)

/-- `diff1 = threshold - in_fr2` (line 496); each entry is NaN (`none`) when
the threshold is. -/
def trialDiff1 (times instf : List ℚ) (settling_time sim_time MF_time IO_time m1 q : ℚ)
    (k : ℕ) : List (Option ℚ) :=
  (trialSel2 times instf settling_time sim_time MF_time IO_time k).map
    (fun p => (trialThreshold times instf settling_time sim_time MF_time m1 q k).map
      (fun th => th - p.2))

/-- Scaled cumulative mean of trial `k` over the window
`t0 < t ≤ t0 + IO_time` (lines 503–511). -/
def trialCumMean (times instf : List ℚ) (settling_time sim_time IO_time m2 : ℚ)
    (k : ℕ) : List ℚ :=
  cumMean ((maskSel times instf (trial_t0 settling_time sim_time k)
    (trial_t0 settling_time sim_time k + IO_time)).map Prod.snd) m2

/-- `diff2 = cum_mean[-len(in_fr2):] - in_fr2` (line 522). -/
def trialDiff2 (times instf : List ℚ) (settling_time sim_time MF_time IO_time m2 : ℚ)
    (k : ℕ) : List ℚ :=
  List.zipWith (fun c v => c - v)
    (pySliceLast (trialCumMean times instf settling_time sim_time IO_time m2 k)
      (trialSel2 times instf settling_time sim_time MF_time IO_time k).length)
    ((trialSel2 times instf settling_time sim_time MF_time IO_time k).map Prod.snd)

/-- `CR = np.logical_and(diff1 < 0., diff2 < 0.)` (line 528); a NaN entry of
`diff1` compares as not-less-than-zero. -/
def trialCR (times instf : List ℚ) (settling_time sim_time MF_time IO_time m1 q m2 : ℚ)
    (k : ℕ) : List Bool :=
  List.zipWith (fun d1 d2 => nanLt0 d1 && decide (d2 < 0))
    (trialDiff1 times instf settling_time sim_time MF_time IO_time m1 q k)
    (trialDiff2 times instf settling_time sim_time MF_time IO_time m2 k)

/-- Result of one trial of `calculate_threshold` (lines 476–539): the trial's
threshold, its logical result, and its reaction time.  If some entry of `CR`
is true, the reaction time is the time of the first such sample minus
`settling_time + k*sim_time + MF_time`, else `-1` (lines 531–539). -/
def trialResult (times instf : List ℚ)
    (settling_time sim_time MF_time IO_time m1 q m2 : ℚ) (k : ℕ) :
    Option ℚ × Bool × ℚ :=
  match (List.zip
      ((trialSel2 times instf settling_time sim_time MF_time IO_time k).map Prod.fst)
      (trialCR times instf settling_time sim_time MF_time IO_time m1 q m2 k)).find?
      (fun x => x.2) with
  | some p => (trialThreshold times instf settling_time sim_time MF_time m1 q k, true,
      p.1 - (trial_t0 settling_time sim_time k + MF_time))
  | none => (trialThreshold times instf settling_time sim_time MF_time m1 q k, false, -1)

/-- `calculate_threshold` (lines 470–541).  The Python function first builds
`instf` as the neuron-average of `instant_fr[2]['instant_fr']` smoothed by
`scipy.ndimage.gaussian_filter(·, 4)`; that external smoothing stage is taken
as the input `instf` (paired positionally with `times`).  The function
returns the threshold of the *last* trial (the loop variable after the loop;
`none` when `trials = 0`, where Python would raise, or when the last
baseline window is empty, where numpy yields NaN) along with the per-trial
logical results and reaction times. -/
def calculate_threshold (times instf : List ℚ) (trials : ℕ)
    (settling_time sim_time MF_time IO_time m1 q m2 : ℚ) :
    Option ℚ × List Bool × List ℚ :=
  let rs := (List.range trials).map
    (fun k => trialResult times instf settling_time sim_time MF_time IO_time m1 q m2 k)
  ((rs.map Prod.fst).getLastD none, rs.map (fun r => r.2.1), rs.map (fun r => r.2.2))

/-! ## General list helpers -/

theorem getD_map_range {α : Type} (f : ℕ → α) (d : α) {k n : ℕ} (h : k < n) :
    ((List.range n).map f).getD k d = f k := by
  simp [List.getD_eq_getElem?_getD, List.getElem?_range h]

theorem getLastD_map_range {α : Type} (f : ℕ → α) (d : α) {n : ℕ} (h : 1 ≤ n) :
    ((List.range n).map f).getLastD d = f (n - 1) := by
  rw [List.getLastD_eq_getLast?, List.getLast?_eq_getElem?]
  have hlt : n - 1 < n := by omega
  simp [List.getElem?_range hlt]

/-! ## Sum identities for the fitness function -/

theorem sum_sq_weighted (fr t w : List ℚ) (h1 : fr.length = t.length)
    (h2 : fr.length = w.length) :
    ((List.zipWith (fun d wi => d * wi) (List.zipWith (fun a b => a - b) fr t) w).map
        (fun d => d ^ 2)).sum
      = ∑ i ∈ Finset.range fr.length, ((fr.getD i 0 - t.getD i 0) * w.getD i 0) ^ 2 := by
  induction fr generalizing t w with
  | nil => simp
  | cons a fr ih =>
    cases t with
    | nil => simp at h1
    | cons b t =>
      cases w with
      | nil => simp at h2
      | cons c w =>
        simp only [List.zipWith_cons_cons, List.map_cons, List.sum_cons, List.length_cons]
        rw [Finset.sum_range_succ']
        simp only [List.getD_cons_succ, List.getD_cons_zero]
        rw [ih t w (by simpa using h1) (by simpa using h2)]
        ring

theorem sum_sq_unweighted (fr t : List ℚ) (h1 : fr.length = t.length) :
    ((List.zipWith (fun a b => a - b) fr t).map (fun d => d ^ 2)).sum
      = ∑ i ∈ Finset.range fr.length, (fr.getD i 0 - t.getD i 0) ^ 2 := by
  induction fr generalizing t with
  | nil => simp
  | cons a fr ih =>
    cases t with
    | nil => simp at h1
    | cons b t =>
      simp only [List.zipWith_cons_cons, List.map_cons, List.sum_cons, List.length_cons]
      rw [Finset.sum_range_succ']
      simp only [List.getD_cons_succ, List.getD_cons_zero]
      rw [ih t (by simpa using h1)]
      ring

theorem sum_sq_spec (fr t w : List ℚ) (h1 : fr.length = t.length)
    (h2 : fr.length = w.length) :
    (List.zipWith (fun d wsq => d * wsq)
        ((List.zipWith (fun a b => a - b) fr t).map (fun d => d ^ 2))
        (w.map (fun wi => wi ^ 2))).sum
      = ∑ i ∈ Finset.range fr.length, (fr.getD i 0 - t.getD i 0) ^ 2 * (w.getD i 0) ^ 2 := by
  induction fr generalizing t w with
  | nil => simp
  | cons a fr ih =>
    cases t with
    | nil => simp at h1
    | cons b t =>
      cases w with
      | nil => simp at h2
      | cons c w =>
        simp only [List.zipWith_cons_cons, List.map_cons, List.sum_cons, List.length_cons]
        rw [Finset.sum_range_succ']
        simp only [List.getD_cons_succ, List.getD_cons_zero]
        rw [ih t w (by simpa using h1) (by simpa using h2)]
        ring

/-- Closed form of the weighted fitness as a finite sum. -/
theorem fitness_function_some_eq (fr t w : List ℚ) (conv : ℚ)
    (h1 : fr.length = t.length) (h2 : fr.length = w.length) :
    fitness_function fr t conv (some w)
      = conv / 2 - ∑ i ∈ Finset.range fr.length,
          ((fr.getD i 0 - t.getD i 0) * w.getD i 0) ^ 2 := by
  simp only [fitness_function]
  rw [sum_sq_weighted fr t w h1 h2]
  ring

/-- Closed form of the unweighted fitness as a finite sum. -/
theorem fitness_function_none_eq (fr t : List ℚ) (conv : ℚ)
    (h1 : fr.length = t.length) :
    fitness_function fr t conv none
      = conv / 2 - ∑ i ∈ Finset.range fr.length, (fr.getD i 0 - t.getD i 0) ^ 2 := by
  simp only [fitness_function]
  rw [sum_sq_unweighted fr t h1]
  ring

/-! ## Claim theorems -/

/-- C2: with matching lengths, `fitness_function` returns exactly
`-sum((fr_i - fr_target_i)^2 * weight_i^2) + conv/2` when weights are given,
and `-sum((fr_i - fr_target_i)^2) + conv/2` when `fr_weights` is `None`;
the spectral term `conv` is halved before being added. -/
theorem c2_fitness_function_formula (fr t w : List ℚ) (conv : ℚ)
    (h1 : fr.length = t.length) (h2 : fr.length = w.length) :
    fitness_function fr t conv (some w)
      = -(List.zipWith (fun d wsq => d * wsq)
            ((List.zipWith (fun a b => a - b) fr t).map (fun d => d ^ 2))
            (w.map (fun wi => wi ^ 2))).sum + conv / 2
    ∧ fitness_function fr t conv none
      = -((List.zipWith (fun a b => a - b) fr t).map (fun d => d ^ 2)).sum + conv / 2 := by
  constructor
  · rw [fitness_function_some_eq fr t w conv h1 h2, sum_sq_spec fr t w h1 h2]
    rw [show (∑ i ∈ Finset.range fr.length, ((fr.getD i 0 - t.getD i 0) * w.getD i 0) ^ 2)
        = ∑ i ∈ Finset.range fr.length, (fr.getD i 0 - t.getD i 0) ^ 2 * (w.getD i 0) ^ 2 from
      Finset.sum_congr rfl (fun i _ => mul_pow _ _ 2)]
    ring
  · rw [fitness_function_none_eq fr t conv h1, sum_sq_unweighted fr t h1]
    ring

/-- C2 witness at a concrete input. -/
theorem c2_witness :
    ([3, 1] : List ℚ).length = ([1, 1] : List ℚ).length
    ∧ ([3, 1] : List ℚ).length = ([2, 1] : List ℚ).length
    ∧ (fitness_function [3, 1] [1, 1] 4 (some [2, 1])
        = -(List.zipWith (fun d wsq => d * wsq)
              ((List.zipWith (fun a b => a - b) ([3, 1] : List ℚ) [1, 1]).map (fun d => d ^ 2))
              (([2, 1] : List ℚ).map (fun wi => wi ^ 2))).sum + 4 / 2
      ∧ fitness_function [3, 1] [1, 1] 4 none
        = -((List.zipWith (fun a b => a - b) ([3, 1] : List ℚ) [1, 1]).map
            (fun d => d ^ 2)).sum + 4 / 2) :=
  ⟨rfl, rfl, c2_fitness_function_formula [3, 1] [1, 1] [2, 1] 4 rfl rfl⟩

/-- C3: with every other input fixed, the fitness is non-increasing in the
weighted absolute deviation of any single firing-rate component from its
target: replacing component `i` by a value whose weighted distance to the
target is at least as large can only lower the fitness. -/
theorem c3_fitness_monotone (fr t w : List ℚ) (conv x : ℚ) (i : ℕ)
    (h1 : fr.length = t.length) (h2 : fr.length = w.length) (hi : i < fr.length)
    (hfar : |(fr.getD i 0 - t.getD i 0) * w.getD i 0| ≤ |(x - t.getD i 0) * w.getD i 0|) :
    fitness_function (fr.set i x) t conv (some w) ≤ fitness_function fr t conv (some w) := by
  rw [fitness_function_some_eq fr t w conv h1 h2,
    fitness_function_some_eq (fr.set i x) t w conv (by simpa using h1) (by simpa using h2)]
  rw [List.length_set]
  have hterm : ∀ j ∈ Finset.range fr.length,
      ((fr.getD j 0 - t.getD j 0) * w.getD j 0) ^ 2
        ≤ (((fr.set i x).getD j 0 - t.getD j 0) * w.getD j 0) ^ 2 := by
    intro j _
    by_cases hji : j = i
    · subst hji
      have hx : (fr.set j x).getD j 0 = x := by
        simp [List.getD_eq_getElem?_getD, List.getElem?_set_self (by simpa using hi)]
      rw [hx]
      calc ((fr.getD j 0 - t.getD j 0) * w.getD j 0) ^ 2
          = |(fr.getD j 0 - t.getD j 0) * w.getD j 0| ^ 2 := (sq_abs _).symm
        _ ≤ |(x - t.getD j 0) * w.getD j 0| ^ 2 := by
            exact pow_le_pow_left₀ (abs_nonneg _) hfar 2
        _ = ((x - t.getD j 0) * w.getD j 0) ^ 2 := sq_abs _
    · have hx : (fr.set i x).getD j 0 = fr.getD j 0 := by
        simp [List.getD_eq_getElem?_getD, List.getElem?_set_ne (Ne.symm hji)]
      rw [hx]
  exact sub_le_sub_left (Finset.sum_le_sum hterm) _

/-- C3 witness at a concrete input. -/
theorem c3_witness :
    ([1] : List ℚ).length = ([0] : List ℚ).length
    ∧ ([1] : List ℚ).length = ([1] : List ℚ).length
    ∧ 0 < ([1] : List ℚ).length
    ∧ |(([1] : List ℚ).getD 0 0 - ([0] : List ℚ).getD 0 0) * ([1] : List ℚ).getD 0 0|
        ≤ |((2 : ℚ) - ([0] : List ℚ).getD 0 0) * ([1] : List ℚ).getD 0 0|
    ∧ fitness_function (([1] : List ℚ).set 0 2) [0] 4 (some [1])
        ≤ fitness_function [1] [0] 4 (some [1]) :=
  ⟨rfl, rfl, by decide, by norm_num,
    c3_fitness_monotone [1] [0] [1] 4 2 0 rfl rfl (by decide) (by norm_num)⟩

/-- C7: every bin index incremented by `fr_window_step` for a spike passes
the guard `0 <= elem < elem_len`; no out-of-bounds write is ever attempted,
so spikes near the simulation edges contribute only to in-range bins. -/
theorem c7_spikeBins_in_bounds (window step start_time : ℚ) (eln : ℕ) (time : ℚ) (e : ℤ)
    (he : e ∈ spikeBins window step start_time eln time) :
    0 ≤ e ∧ e < (eln : ℤ) := by
  rw [spikeBins, List.mem_filter] at he
  have h2 := he.2
  simp only [Bool.and_eq_true, decide_eq_true_eq] at h2
  exact h2

/-- C7 witness at a concrete spike. -/
theorem c7_witness :
    (5 : ℤ) ∈ spikeBins 1 1 0 11 5 ∧ (0 ≤ (5 : ℤ) ∧ (5 : ℤ) < ((11 : ℕ) : ℤ)) :=
  have hmem : (5 : ℤ) ∈ spikeBins 1 1 0 11 5 := by
    norm_num [spikeBins, how_many_wind_before, dt_of, last_window_index, pyint_def,
      List.range_succ]
  ⟨hmem, c7_spikeBins_in_bounds 1 1 0 11 5 5 hmem⟩

/-- C1 counterexample: with `window = 3/2`, `step = 1`, `start_time = 0`,
`elem_len = 11` and a spike at `time = 101/20`, all candidate windows lie
within bounds, yet the spike is counted in exactly 1 bin while
`ceil(window/step) = 2`. -/
theorem c1_counterexample :
    (0 ≤ last_window_index (3/2) 1 0 (101/20) - how_many_wind_before (3/2) 1 0 (101/20)
      ∧ last_window_index (3/2) 1 0 (101/20) < ((11 : ℕ) : ℤ))
    ∧ (spikeBins (3/2) 1 0 11 (101/20)).length = 1
    ∧ ⌈(3/2 : ℚ) / 1⌉ = 2 := by
  refine ⟨⟨?_, ?_⟩, ?_, ?_⟩
  · norm_num [last_window_index, how_many_wind_before, dt_of, pyint_def]
  · norm_num [last_window_index, pyint_def]
  · norm_num [spikeBins, how_many_wind_before, dt_of, last_window_index, pyint_def,
      List.range_succ]
  · rw [Int.ceil_eq_iff]; norm_num

/-- C1 (amended): a spike whose candidate windows all lie within bounds
(`0 ≤ last_window_index - how_many_wind_before` and
`last_window_index < elem_len`, with `time - start_time + window/2 ≥ 0`) is
counted in a contiguous run of bins `last_window_index - how_many_wind_before
… last_window_index`, whose length is `⌊window/step⌋` or `⌊window/step⌋ + 1`
— not always `⌈window/step⌉` as the claim states. -/
theorem c1_amended (window step start_time time : ℚ) (eln : ℕ)
    (hw : 0 < window) (hs : 0 < step)
    (hpos : 0 ≤ time - start_time + window / 2)
    (hlo : 0 ≤ last_window_index window step start_time time
        - how_many_wind_before window step start_time time)
    (hhi : last_window_index window step start_time time < (eln : ℤ)) :
    (∀ e : ℤ, e ∈ spikeBins window step start_time eln time
      ↔ last_window_index window step start_time time
          - how_many_wind_before window step start_time time ≤ e
        ∧ e ≤ last_window_index window step start_time time)
    ∧ ((spikeBins window step start_time eln time).length = (⌊window / step⌋).toNat
      ∨ (spikeBins window step start_time eln time).length = (⌊window / step⌋).toNat + 1) := by
  set L := last_window_index window step start_time time with hLdef
  set H := how_many_wind_before window step start_time time with hHdef
  have hq0 : 0 ≤ (time - start_time + window / 2) / step := div_nonneg hpos hs.le
  have hLf : L = ⌊(time - start_time + window / 2) / step⌋ := by
    rw [hLdef, last_window_index, pyint_eq_floor hq0]
  have hX : ((time - start_time + window / 2) / step) * step
      = time - start_time + window / 2 := div_mul_cancel₀ _ hs.ne'
  have hdt : dt_of window step start_time time
      = (time - start_time + window / 2) - (L : ℚ) * step := by
    rw [dt_of, ← hLdef]; ring
  have hdt0 : 0 ≤ dt_of window step start_time time := by
    have h1 : ((⌊(time - start_time + window / 2) / step⌋ : ℤ) : ℚ)
        ≤ (time - start_time + window / 2) / step := Int.floor_le _
    have h2 := mul_le_mul_of_nonneg_right h1 hs.le
    rw [hX] at h2
    rw [hdt, hLf]
    linarith
  have hdts : dt_of window step start_time time < step := by
    have h1 : (time - start_time + window / 2) / step
        < (⌊(time - start_time + window / 2) / step⌋ : ℚ) + 1 := Int.lt_floor_add_one _
    have h2 := mul_lt_mul_of_pos_right h1 hs
    rw [hX] at h2
    rw [hdt, hLf]
    nlinarith
  have hr_ub : (window - dt_of window step start_time time) / step ≤ window / step :=
    (div_le_div_iff_of_pos_right hs).mpr (by linarith)
  have hr_lb : window / step - 1 < (window - dt_of window step start_time time) / step := by
    have h1 : (window - step) / step < (window - dt_of window step start_time time) / step :=
      (div_lt_div_iff_of_pos_right hs).mpr (by linarith)
    have h2 : (window - step) / step = window / step - 1 := by
      rw [sub_div, div_self hs.ne']
    linarith
  have hfl0 : 0 ≤ ⌊window / step⌋ := Int.floor_nonneg.mpr (div_nonneg hw.le hs.le)
  have hHr : H = pyint ((window - dt_of window step start_time time) / step) := rfl
  have hHcases : H = ⌊window / step⌋ - 1 ∨ H = ⌊window / step⌋ := by
    by_cases hr0 : (window - dt_of window step start_time time) / step < 0
    · right
      have hwd : window - dt_of window step start_time time < 0 := by
        have := mul_neg_of_neg_of_pos hr0 hs
        rwa [div_mul_cancel₀ _ hs.ne'] at this
      have hws1 : window / step < 1 := (div_lt_one hs).mpr (by linarith)
      have hflz : ⌊window / step⌋ = 0 :=
        Int.floor_eq_zero_iff.mpr ⟨div_nonneg hw.le hs.le, hws1⟩
      have hnr : ⌊-((window - dt_of window step start_time time) / step)⌋ = 0 := by
        refine Int.floor_eq_zero_iff.mpr ⟨by linarith, ?_⟩
        have : (-1 : ℚ) < (window - dt_of window step start_time time) / step := by
          have : (0 : ℚ) < window / step := div_pos hw hs
          linarith
        linarith
      rw [hHr, pyint, if_pos hr0, ratFloor_eq_floor, hnr, hflz]
      ring
    · push_neg at hr0
      have h1 : ⌊(window - dt_of window step start_time time) / step⌋ ≤ ⌊window / step⌋ :=
        Int.floor_le_floor hr_ub
      have h2 : ⌊window / step⌋ - 1
          ≤ ⌊(window - dt_of window step start_time time) / step⌋ := by
        have := Int.floor_le_floor hr_lb.le
        rwa [Int.floor_sub_one] at this
      rw [hHr, pyint_eq_floor hr0]
      omega
  have hHm1 : -1 ≤ H := by omega
  have hkeep : spikeBins window step start_time eln time
      = (List.range (H + 1).toNat).map (fun j : ℕ => L - (j : ℤ)) := by
    rw [spikeBins, ← hLdef, ← hHdef]
    apply List.filter_eq_self.mpr
    intro e he
    rcases List.mem_map.mp he with ⟨j, hj, rfl⟩
    rw [List.mem_range] at hj
    simp only [Bool.and_eq_true, decide_eq_true_eq]
    omega
  constructor
  · intro e
    rw [hkeep, List.mem_map]
    constructor
    · rintro ⟨j, hj, rfl⟩
      rw [List.mem_range] at hj
      omega
    · rintro ⟨h1, h2⟩
      exact ⟨(L - e).toNat, List.mem_range.mpr (by omega), by omega⟩
  · rw [hkeep, List.length_map, List.length_range]
    omega

/-- C1 amended witness at a concrete spike. -/
theorem c1_amended_witness :
    ((0 : ℚ) < 1 ∧ (0 : ℚ) < 1 ∧ (0 : ℚ) ≤ 5 - 0 + 1 / 2
      ∧ 0 ≤ last_window_index 1 1 0 5 - how_many_wind_before 1 1 0 5
      ∧ last_window_index 1 1 0 5 < ((11 : ℕ) : ℤ))
    ∧ ((∀ e : ℤ, e ∈ spikeBins 1 1 0 11 5
        ↔ last_window_index 1 1 0 5 - how_many_wind_before 1 1 0 5 ≤ e
          ∧ e ≤ last_window_index 1 1 0 5)
      ∧ ((spikeBins 1 1 0 11 5).length = (⌊(1 : ℚ) / 1⌋).toNat
        ∨ (spikeBins 1 1 0 11 5).length = (⌊(1 : ℚ) / 1⌋).toNat + 1)) :=
  ⟨⟨by norm_num, by norm_num, by norm_num,
      by norm_num [last_window_index, how_many_wind_before, dt_of, pyint_def],
      by norm_num [last_window_index, pyint_def]⟩,
    c1_amended 1 1 0 5 11 (by norm_num) (by norm_num) (by norm_num)
      (by norm_num [last_window_index, how_many_wind_before, dt_of, pyint_def])
      (by norm_num [last_window_index, pyint_def])⟩

theorem pyint_nonneg {q : ℚ} (h : 0 ≤ q) : 0 ≤ pyint q := by
  rw [pyint_eq_floor h]
  exact Int.floor_nonneg.mpr h

theorem getD_map {α β : Type} (f : α → β) (l : List α) (i : ℕ) (d : α) (d' : β)
    (hi : i < l.length) : (l.map f).getD i d' = f (l.getD i d) := by
  rw [List.getD_eq_getElem?_getD, List.getElem?_map, List.getElem?_eq_getElem hi]
  simp [List.getD_eq_getElem?_getD, List.getElem?_eq_getElem hi]

/-- C9: every result dictionary of `fr_window_step` has `instant_fr` with
exactly `last_id - first_id + 1` rows and `int((sim_time - start_time)/step) + 1`
columns, and `times` is the arithmetic sequence of that same length starting
at `start_time` with spacing `step`. -/
theorem c9_fr_window_step_shape (rl : List Raster) (ids : String → ℤ × ℤ)
    (sim_time window step start_time : ℚ)
    (hids : ∀ nm : String, (ids nm).1 ≤ (ids nm).2)
    (hstep : 0 < step) (hss : start_time ≤ sim_time) :
    ∀ res ∈ fr_window_step rl ids sim_time window step start_time,
      ((res.instant_fr.length : ℤ) = (ids res.name).2 - (ids res.name).1 + 1)
      ∧ (∀ row ∈ res.instant_fr,
          (row.length : ℤ) = pyint ((sim_time - start_time) / step) + 1)
      ∧ ((res.times.length : ℤ) = pyint ((sim_time - start_time) / step) + 1)
      ∧ (∀ j : ℕ, j < res.times.length → res.times.getD j 0 = start_time + (j : ℚ) * step) := by
  intro res hres
  have hpy : 0 ≤ pyint ((sim_time - start_time) / step) :=
    pyint_nonneg (div_nonneg (by linarith) hstep.le)
  rcases List.mem_map.mp hres with ⟨raster, _, rfl⟩
  have hnm := hids raster.compartment_name
  refine ⟨?_, ?_, ?_, ?_⟩
  · simp only [fr_window_step_single, List.length_map, List.length_range]
    omega
  · intro row hrow
    simp only [fr_window_step_single, List.mem_map] at hrow
    rcases hrow with ⟨r, _, rfl⟩
    simp only [List.length_map, List.length_range, elem_len]
    omega
  · simp only [fr_window_step_single, List.length_map, List.length_range, elem_len]
    omega
  · intro j hj
    simp only [fr_window_step_single, List.length_map, List.length_range] at hj
    simp only [fr_window_step_single]
    rw [getD_map_range _ _ hj]

/-- C9 witness at a concrete raster list. -/
theorem c9_witness :
    (∀ nm : String, ((fun _ : String => ((0 : ℤ), (1 : ℤ))) nm).1
        ≤ ((fun _ : String => ((0 : ℤ), (1 : ℤ))) nm).2)
    ∧ (0 : ℚ) < 1 ∧ (0 : ℚ) ≤ 10
    ∧ (∀ res ∈ fr_window_step [⟨[2], [0], "PC"⟩] (fun _ => (0, 1)) 10 2 1 0,
        ((res.instant_fr.length : ℤ)
            = ((fun _ : String => ((0 : ℤ), (1 : ℤ))) res.name).2
              - ((fun _ : String => ((0 : ℤ), (1 : ℤ))) res.name).1 + 1)
        ∧ (∀ row ∈ res.instant_fr, (row.length : ℤ) = pyint (((10 : ℚ) - 0) / 1) + 1)
        ∧ ((res.times.length : ℤ) = pyint (((10 : ℚ) - 0) / 1) + 1)
        ∧ (∀ j : ℕ, j < res.times.length → res.times.getD j 0 = 0 + (j : ℚ) * 1)) :=
  ⟨fun _ => by norm_num, by norm_num, by norm_num,
    c9_fr_window_step_shape [⟨[2], [0], "PC"⟩] (fun _ => (0, 1)) 10 2 1 0
      (fun _ => by norm_num) (by norm_num) (by norm_num)⟩

/-- If no event lies in the analyzed time window, the spike loop of
`calculate_fr` leaves its state unchanged. -/
theorem frStep_foldl_const (t_start : ℚ) (t_end : Option ℚ) (l : List (ℚ × ℤ))
    (st : FrState) (h : ∀ ev ∈ l, ¬(t_start < ev.1 ∧ ltEnd ev.1 t_end)) :
    l.foldl (frStep t_start t_end) st = st := by
  induction l generalizing st with
  | nil => rfl
  | cons a l ih =>
    rw [List.foldl_cons]
    rw [show frStep t_start t_end st a = st from if_neg (h a (by simp))]
    exact ih st (fun ev hev => h ev (List.mem_cons_of_mem a hev))

/-- C6: a population with no spikes in the analyzed window has firing rate 0.
First part: `calculate_fr` yields 0 for a raster none of whose spike times
lies in `(t_start, t_end)`.  Second part: in `fr_window_step`, every entry of
the rate-matrix row of a neuron with no spikes is 0. -/
theorem c6_zero_spikes_zero_rate :
    (∀ (rl : List Raster) (ids : String → ℤ × ℤ) (t_start : ℚ) (t_end : Option ℚ) (i : ℕ),
      i < rl.length →
      (∀ tt ∈ (rl.getD i ⟨[], [], ""⟩).times, ¬(t_start < tt ∧ ltEnd tt t_end)) →
      (calculate_fr rl ids t_start t_end).getD i (-1) = 0)
    ∧ (∀ (raster : Raster) (first last : ℤ) (sim_time window step start_time : ℚ) (r : ℕ),
      (∀ p ∈ List.zip (raster.neurons_idx.map (fun ix => ix - first)) raster.times,
        pyIdx p.1 (last - first + 1).toNat ≠ r) →
      ∀ x ∈ (fr_window_step_single raster first last
          sim_time window step start_time).instant_fr.getD r [],
        x = 0) := by
  constructor
  · intro rl ids t_start t_end i hi hno
    rw [calculate_fr, getD_map _ _ _ ⟨[], [], ""⟩ _ hi]
    have hfold : calculate_fr_ISIs (rl.getD i ⟨[], [], ""⟩)
        (ids (rl.getD i ⟨[], [], ""⟩).compartment_name).1
        ((ids (rl.getD i ⟨[], [], ""⟩).compartment_name).2
          - (ids (rl.getD i ⟨[], [], ""⟩).compartment_name).1 + 1).toNat t_start t_end
        = ⟨List.replicate ((ids (rl.getD i ⟨[], [], ""⟩).compartment_name).2
            - (ids (rl.getD i ⟨[], [], ""⟩).compartment_name).1 + 1).toNat (-1),
          List.replicate ((ids (rl.getD i ⟨[], [], ""⟩).compartment_name).2
            - (ids (rl.getD i ⟨[], [], ""⟩).compartment_name).1 + 1).toNat []⟩ := by
      apply frStep_foldl_const
      intro ev hev
      exact hno ev.1 (List.of_mem_zip hev).1
    simp only [hfold]
    have hmap : inv_mean_ISI (List.replicate
        ((ids (rl.getD i ⟨[], [], ""⟩).compartment_name).2
          - (ids (rl.getD i ⟨[], [], ""⟩).compartment_name).1 + 1).toNat []) =
        List.replicate ((ids (rl.getD i ⟨[], [], ""⟩).compartment_name).2
          - (ids (rl.getD i ⟨[], [], ""⟩).compartment_name).1 + 1).toNat 0 := by
      rw [inv_mean_ISI, List.map_replicate]
      simp
    rw [hmap, listMean]
    simp [round2]
  · intro raster first last sim_time window step start_time r hno x hx
    rcases Nat.lt_or_ge r ((last - first + 1).toNat) with hr | hr
    · simp only [fr_window_step_single] at hx
      rw [getD_map_range _ _ hr] at hx
      rcases List.mem_map.mp hx with ⟨e, _, rfl⟩
      have hcnt : firing_count
          (List.zip (raster.neurons_idx.map (fun ix => ix - first)) raster.times)
          ((last - first + 1).toNat) window step start_time
          (elem_len sim_time start_time step) r e = 0 := by
        rw [firing_count, List.countP_eq_zero]
        intro p hp
        simp only [Bool.and_eq_true, decide_eq_true_eq, not_and]
        intro hidx
        exact absurd hidx (hno p hp)
      rw [hcnt]
      simp
    · simp only [fr_window_step_single] at hx
      rw [List.getD_eq_getElem?_getD, List.getElem?_eq_none (by simpa using hr)] at hx
      simp at hx

/-- C6 witness: a raster whose only spike is outside the window, and a
neuron (row 1) with no spikes. -/
theorem c6_witness :
    (0 < ([(⟨[5], [1], "PC"⟩ : Raster)] : List Raster).length
      ∧ (∀ tt ∈ (([(⟨[5], [1], "PC"⟩ : Raster)] : List Raster).getD 0 ⟨[], [], ""⟩).times,
          ¬((10 : ℚ) < tt ∧ ltEnd tt (some 20)))
      ∧ (calculate_fr [⟨[5], [1], "PC"⟩] (fun _ => (0, 1)) 10 (some 20)).getD 0 (-1) = 0)
    ∧ ((∀ p ∈ List.zip ((([5] : List ℤ)).map (fun ix => ix - 0)) ([(2 : ℚ)] : List ℚ),
          pyIdx p.1 ((1 : ℤ) - 0 + 1).toNat ≠ 0)
      ∧ ∀ x ∈ (fr_window_step_single ⟨[2], [5], "PC"⟩ 0 1 10 2 1 0).instant_fr.getD 0 [],
          x = 0) := by
  have h1 : ∀ tt ∈ (([(⟨[5], [1], "PC"⟩ : Raster)] : List Raster).getD 0 ⟨[], [], ""⟩).times,
      ¬((10 : ℚ) < tt ∧ ltEnd tt (some 20)) := by
    intro tt htt
    simp only [List.getD_cons_zero] at htt
    rcases List.mem_singleton.mp htt with rfl
    rintro ⟨h, -⟩
    norm_num at h
  have h2 : ∀ p ∈ List.zip ((([5] : List ℤ)).map (fun ix => ix - 0)) ([(2 : ℚ)] : List ℚ),
      pyIdx p.1 ((1 : ℤ) - 0 + 1).toNat ≠ 0 := by
    intro p hp
    simp only [List.map_cons, List.map_nil, List.zip_cons_cons, List.zip_nil_right,
      List.mem_singleton] at hp
    subst hp
    norm_num [pyIdx]
  exact ⟨⟨by norm_num, h1,
      c6_zero_spikes_zero_rate.1 [⟨[5], [1], "PC"⟩] (fun _ => (0, 1)) 10 (some 20) 0
        (by norm_num) h1⟩,
    ⟨h2, c6_zero_spikes_zero_rate.2 ⟨[2], [5], "PC"⟩ 0 1 10 2 1 0 0 h2⟩⟩

/-- When every `diff1` entry is NaN (`none`), every `CR` entry is false. -/
theorem zipWith_false_of_left_none (sel2v : List (ℚ × ℚ)) (d2 : List ℚ) :
    ∀ b ∈ List.zipWith (fun d1 d2 => nanLt0 d1 && decide (d2 < 0))
        (sel2v.map (fun _ => (none : Option ℚ))) d2, b = false := by
  induction sel2v generalizing d2 with
  | nil => simp
  | cons a sel2v ih =>
    cases d2 with
    | nil => simp
    | cons c d2 =>
      intro b hb
      rw [List.map_cons, List.zipWith_cons_cons] at hb
      rcases List.mem_cons.mp hb with rfl | hb
      · simp [nanLt0]
      · exact ih d2 b hb

/-- C8 counterexample: in `calculate_threshold` an empty baseline window is
not guarded by 0 — the baseline mean and hence the returned threshold are
NaN (`none`), which is not the value 0.  Here the single trial starts at
`t = 100` while the only sample is at `t = 10`, so every selection is
empty. -/
theorem c8_counterexample :
    (calculate_threshold [10] [5] 1 100 10 1 5 1 0 1).1 = none
    ∧ (calculate_threshold [10] [5] 1 100 10 1 5 1 0 1).1 ≠ some 0 := by
  have h : (calculate_threshold [10] [5] 1 100 10 1 5 1 0 1).1 = none := by
    norm_num [calculate_threshold, trialResult, trialCR, trialDiff1, trialDiff2,
      trialSel2, trialSel1, trialThreshold, trialBaseline, trialCumMean, maskSel,
      npMean, cumMean, pySliceLast, trial_t0, nanLt0, List.range_succ, List.filter]
  exact ⟨h, by rw [h]; exact fun hc => Option.noConfusion hc⟩

/-- C8 (amended): the division-by-zero guard exists per neuron in
`calculate_fr` — an empty ISI list yields rate 0 and CV 0 — but in
`calculate_threshold` an empty baseline selection is *not* guarded by 0:
the baseline mean and threshold are NaN (`none`), and since every comparison
with NaN is false the trial is classified as no-response with reaction time
`-1`. -/
theorem c8_amended_guards :
    (∀ (raster : Raster) (first : ℤ) (pop_dim : ℕ) (t_start : ℚ) (t_end : Option ℚ) (i : ℕ),
      (calculate_fr_ISIs raster first pop_dim t_start t_end).ISI_list.getD i [1] = [] →
      (inv_mean_ISI (calculate_fr_ISIs raster first pop_dim t_start t_end).ISI_list).getD i 1
          = 0
      ∧ CV_el ((calculate_fr_ISIs raster first pop_dim t_start t_end).ISI_list.getD i [1])
          = 0)
    ∧ (∀ (times instf : List ℚ) (settling_time sim_time MF_time IO_time m1 q m2 : ℚ) (k : ℕ),
      trialSel1 times instf settling_time sim_time MF_time k = [] →
      trialThreshold times instf settling_time sim_time MF_time m1 q k = none
      ∧ (trialResult times instf settling_time sim_time MF_time IO_time m1 q m2 k).2.1 = false
      ∧ (trialResult times instf settling_time sim_time MF_time IO_time m1 q m2 k).2.2 = -1) := by
  constructor
  · intro raster first pop_dim t_start t_end i h
    by_cases hi : i < (calculate_fr_ISIs raster first pop_dim t_start t_end).ISI_list.length
    · constructor
      · rw [inv_mean_ISI, getD_map _ _ _ [1] _ hi, h]
        simp
      · rw [h, CV_el]
        simp
    · rw [List.getD_eq_getElem?_getD, List.getElem?_eq_none (by omega)] at h
      simp at h
  · intro times instf settling_time sim_time MF_time IO_time m1 q m2 k hsel
    have hbase : trialBaseline times instf settling_time sim_time MF_time k = none := by
      rw [trialBaseline, hsel]
      simp [npMean]
    have hthr : trialThreshold times instf settling_time sim_time MF_time m1 q k = none := by
      rw [trialThreshold, hbase]
      rfl
    have hd1 : trialDiff1 times instf settling_time sim_time MF_time IO_time m1 q k
        = (trialSel2 times instf settling_time sim_time MF_time IO_time k).map
            (fun _ => (none : Option ℚ)) := by
      rw [trialDiff1, hthr]
      rfl
    have hfind : (List.zip
        ((trialSel2 times instf settling_time sim_time MF_time IO_time k).map Prod.fst)
        (trialCR times instf settling_time sim_time MF_time IO_time m1 q m2 k)).find?
        (fun x => x.2) = none := by
      rw [List.find?_eq_none]
      intro x hx
      have hx2 : x.2 ∈ trialCR times instf settling_time sim_time MF_time IO_time m1 q m2 k :=
        (List.of_mem_zip hx).2
      rw [trialCR, hd1] at hx2
      have := zipWith_false_of_left_none
        (trialSel2 times instf settling_time sim_time MF_time IO_time k)
        (trialDiff2 times instf settling_time sim_time MF_time IO_time m2 k) x.2 hx2
      simp [this]
    refine ⟨hthr, ?_, ?_⟩
    · rw [trialResult, hfind]
    · rw [trialResult, hfind]

/-- C8 amended witness at concrete inputs: an empty raster (so an empty ISI
list for the single neuron), and a trial whose baseline window is empty. -/
theorem c8_amended_witness :
    ((calculate_fr_ISIs ⟨[], [], ""⟩ 0 1 0 none).ISI_list.getD 0 [1] = []
      ∧ (inv_mean_ISI (calculate_fr_ISIs ⟨[], [], ""⟩ 0 1 0 none).ISI_list).getD 0 1 = 0
      ∧ CV_el ((calculate_fr_ISIs ⟨[], [], ""⟩ 0 1 0 none).ISI_list.getD 0 [1]) = 0)
    ∧ (trialSel1 [10] [5] 100 10 1 0 = []
      ∧ trialThreshold [10] [5] 100 10 1 1 0 0 = none
      ∧ (trialResult [10] [5] 100 10 1 5 1 0 1 0).2.1 = false
      ∧ (trialResult [10] [5] 100 10 1 5 1 0 1 0).2.2 = -1) := by
  have h1 : (calculate_fr_ISIs ⟨[], [], ""⟩ 0 1 0 none).ISI_list.getD 0 [1] = [] := rfl
  have h2 : trialSel1 [10] [5] 100 10 1 0 = [] := by
    norm_num [trialSel1, maskSel, trial_t0, List.filter]
  exact ⟨⟨h1, c8_amended_guards.1 ⟨[], [], ""⟩ 0 1 0 none 0 h1⟩,
    ⟨h2, c8_amended_guards.2 [10] [5] 100 10 1 5 1 0 1 0 h2⟩⟩

/-- Both branches of the trial match return the trial's threshold first. -/
theorem trialResult_fst (times instf : List ℚ)
    (settling_time sim_time MF_time IO_time m1 q m2 : ℚ) (k : ℕ) :
    (trialResult times instf settling_time sim_time MF_time IO_time m1 q m2 k).1
      = trialThreshold times instf settling_time sim_time MF_time m1 q k := by
  rw [trialResult]
  split <;> rfl

theorem ct_logical_getD (times instf : List ℚ) (trials : ℕ)
    (settling_time sim_time MF_time IO_time m1 q m2 : ℚ) {k : ℕ} (hk : k < trials)
    (d : Bool) :
    (calculate_threshold times instf trials settling_time sim_time MF_time IO_time
      m1 q m2).2.1.getD k d
      = (trialResult times instf settling_time sim_time MF_time IO_time m1 q m2 k).2.1 := by
  simp only [calculate_threshold, List.map_map]
  rw [getD_map_range _ _ hk]
  rfl

theorem ct_reaction_getD (times instf : List ℚ) (trials : ℕ)
    (settling_time sim_time MF_time IO_time m1 q m2 : ℚ) {k : ℕ} (hk : k < trials)
    (d : ℚ) :
    (calculate_threshold times instf trials settling_time sim_time MF_time IO_time
      m1 q m2).2.2.getD k d
      = (trialResult times instf settling_time sim_time MF_time IO_time m1 q m2 k).2.2 := by
  simp only [calculate_threshold, List.map_map]
  rw [getD_map_range _ _ hk]
  rfl

/-- C4: in every trial in which no time sample satisfies the crossing
condition (every `CR` entry false), the recorded reaction time is `-1` and
the trial's logical result is `False`. -/
theorem c4_no_crossing (times instf : List ℚ) (trials : ℕ)
    (settling_time sim_time MF_time IO_time m1 q m2 : ℚ) (k : ℕ) (hk : k < trials)
    (hcr : ∀ b ∈ trialCR times instf settling_time sim_time MF_time IO_time m1 q m2 k,
      b = false) :
    (calculate_threshold times instf trials settling_time sim_time MF_time IO_time
        m1 q m2).2.2.getD k 0 = -1
    ∧ (calculate_threshold times instf trials settling_time sim_time MF_time IO_time
        m1 q m2).2.1.getD k true = false := by
  have hfind : (List.zip
      ((trialSel2 times instf settling_time sim_time MF_time IO_time k).map Prod.fst)
      (trialCR times instf settling_time sim_time MF_time IO_time m1 q m2 k)).find?
      (fun x => x.2) = none := by
    rw [List.find?_eq_none]
    intro x hx
    have := hcr x.2 (List.of_mem_zip hx).2
    simp [this]
  rw [ct_reaction_getD times instf trials settling_time sim_time MF_time IO_time m1 q m2 hk,
    ct_logical_getD times instf trials settling_time sim_time MF_time IO_time m1 q m2 hk,
    trialResult, hfind]
  exact ⟨rfl, rfl⟩

/-- C4 witness: a single-trial input whose only sample is below threshold,
so no crossing occurs. -/
theorem c4_witness :
    (0 < 1
      ∧ (∀ b ∈ trialCR [2] [5] 0 10 (-99) 6 1 0 1 0, b = false)
      ∧ (calculate_threshold [2] [5] 1 0 10 (-99) 6 1 0 1).2.2.getD 0 0 = -1
      ∧ (calculate_threshold [2] [5] 1 0 10 (-99) 6 1 0 1).2.1.getD 0 true = false) := by
  have hcr : ∀ b ∈ trialCR [2] [5] 0 10 (-99) 6 1 0 1 0, b = false := by
    intro b hb
    norm_num [trialCR, trialDiff1, trialDiff2, trialSel2, trialSel1, trialThreshold,
      trialBaseline, trialCumMean, maskSel, npMean, cumMean, pySliceLast, trial_t0,
      nanLt0, List.filter, List.range_succ] at hb
    exact hb
  have h := c4_no_crossing [2] [5] 1 0 10 (-99) 6 1 0 1 0 (by norm_num) hcr
  exact ⟨by norm_num, hcr, h.1, h.2⟩

/-- C5: the trial's response flag is true exactly when some post-stimulus
sample has both differences negative (`diff1 = threshold - rate < 0`, i.e.
rate above the linear threshold `baseline*m1 + q`, and
`diff2 = scaled cumulative mean - rate < 0`, i.e. rate above the running
cumulative mean scaled by `m2`); and when the flag is true the recorded
reaction time is the time of the first such sample minus the trial's
stimulus onset `settling_time + k*sim_time + MF_time`. -/
theorem c5_crossing_detection (times instf : List ℚ) (trials : ℕ)
    (settling_time sim_time MF_time IO_time m1 q m2 : ℚ) (k : ℕ) (hk : k < trials) :
    ((calculate_threshold times instf trials settling_time sim_time MF_time IO_time
        m1 q m2).2.1.getD k false = true
      ↔ ∃ i, i < (trialCR times instf settling_time sim_time MF_time IO_time m1 q m2 k).length
        ∧ nanLt0 ((trialDiff1 times instf settling_time sim_time MF_time IO_time
            m1 q k).getD i none) = true
        ∧ (trialDiff2 times instf settling_time sim_time MF_time IO_time m2 k).getD i 1 < 0)
    ∧ ((calculate_threshold times instf trials settling_time sim_time MF_time IO_time
        m1 q m2).2.1.getD k false = true →
      ∃ p, (List.zip
          ((trialSel2 times instf settling_time sim_time MF_time IO_time k).map Prod.fst)
          (trialCR times instf settling_time sim_time MF_time IO_time m1 q m2 k)).find?
          (fun x => x.2) = some p
        ∧ (calculate_threshold times instf trials settling_time sim_time MF_time IO_time
            m1 q m2).2.2.getD k 0
          = p.1 - (settling_time + (k : ℚ) * sim_time + MF_time)) := by
  have hlen1 : (trialDiff1 times instf settling_time sim_time MF_time IO_time m1 q k).length
      = (trialSel2 times instf settling_time sim_time MF_time IO_time k).length := by
    rw [trialDiff1, List.length_map]
  have hlenCR : (trialCR times instf settling_time sim_time MF_time IO_time m1 q m2 k).length
      = min (trialDiff1 times instf settling_time sim_time MF_time IO_time m1 q k).length
          (trialDiff2 times instf settling_time sim_time MF_time IO_time m2 k).length := by
    rw [trialCR, List.length_zipWith]
  have hlenzip : (List.zip
      ((trialSel2 times instf settling_time sim_time MF_time IO_time k).map Prod.fst)
      (trialCR times instf settling_time sim_time MF_time IO_time m1 q m2 k)).length
      = (trialCR times instf settling_time sim_time MF_time IO_time m1 q m2 k).length := by
    rw [List.length_zip, List.length_map]
    omega
  rw [ct_logical_getD times instf trials settling_time sim_time MF_time IO_time m1 q m2 hk]
  constructor
  · rw [trialResult]
    cases hf : (List.zip
        ((trialSel2 times instf settling_time sim_time MF_time IO_time k).map Prod.fst)
        (trialCR times instf settling_time sim_time MF_time IO_time m1 q m2 k)).find?
        (fun x => x.2) with
    | none =>
      simp only [hf]
      constructor
      · intro h
        exact absurd h (by simp)
      · rintro ⟨i, hiCR, h1, h2⟩
        exfalso
        have hid1 : i < (trialDiff1 times instf settling_time sim_time MF_time IO_time
            m1 q k).length := by omega
        have hid2 : i < (trialDiff2 times instf settling_time sim_time MF_time IO_time
            m2 k).length := by omega
        have hizip : i < (List.zip
            ((trialSel2 times instf settling_time sim_time MF_time IO_time k).map Prod.fst)
            (trialCR times instf settling_time sim_time MF_time IO_time m1 q m2 k)).length := by
          omega
        have hmem := List.getElem_mem hizip
        have hcr := List.find?_eq_none.mp hf _ hmem
        rw [List.getElem_zip] at hcr
        apply hcr
        show (trialCR times instf settling_time sim_time MF_time IO_time m1 q m2 k)[i] = true
        simp only [trialCR]
        rw [List.getElem_zipWith]
        rw [List.getD_eq_getElem?_getD, List.getElem?_eq_getElem hid1] at h1
        rw [List.getD_eq_getElem?_getD, List.getElem?_eq_getElem hid2] at h2
        simp only [Option.getD_some] at h1 h2
        simp [h1, h2]
    | some p =>
      simp only [hf]
      constructor
      · intro _
        have hmem := List.mem_of_find?_eq_some hf
        have hp2 : p.2 = true := by simpa using List.find?_some hf
        rcases List.mem_iff_getElem.mp hmem with ⟨i, hizip, hpi⟩
        have hiCR : i < (trialCR times instf settling_time sim_time MF_time IO_time
            m1 q m2 k).length := by omega
        have hid1 : i < (trialDiff1 times instf settling_time sim_time MF_time IO_time
            m1 q k).length := by omega
        have hid2 : i < (trialDiff2 times instf settling_time sim_time MF_time IO_time
            m2 k).length := by omega
        refine ⟨i, hiCR, ?_⟩
        have hcri : (trialCR times instf settling_time sim_time MF_time IO_time
            m1 q m2 k)[i] = true := by
          have := hpi ▸ hp2
          rwa [List.getElem_zip] at this
        simp only [trialCR] at hcri
        rw [List.getElem_zipWith] at hcri
        simp only [Bool.and_eq_true, decide_eq_true_eq] at hcri
        rw [List.getD_eq_getElem?_getD, List.getElem?_eq_getElem hid1,
          List.getD_eq_getElem?_getD, List.getElem?_eq_getElem hid2]
        simpa using hcri
      · intro _
        trivial
  · intro hflag
    cases hf : (List.zip
        ((trialSel2 times instf settling_time sim_time MF_time IO_time k).map Prod.fst)
        (trialCR times instf settling_time sim_time MF_time IO_time m1 q m2 k)).find?
        (fun x => x.2) with
    | none =>
      rw [trialResult, hf] at hflag
      exact absurd hflag (by simp)
    | some p =>
      refine ⟨p, rfl, ?_⟩
      rw [ct_reaction_getD times instf trials settling_time sim_time MF_time IO_time
        m1 q m2 hk, trialResult, hf, trial_t0]

/-- C5 witness: a single-trial input with a crossing; the flag is true and
the reaction time is the first crossing time minus the stimulus onset. -/
theorem c5_witness :
    0 < 1
    ∧ (((calculate_threshold [1, 2, 3, 4, 5, 6] [1, 10, 10, 10, 10, 10] 1 0 10 (-99) 6
          1 0 1).2.1.getD 0 false = true
        ↔ ∃ i, i < (trialCR [1, 2, 3, 4, 5, 6] [1, 10, 10, 10, 10, 10] 0 10 (-99) 6
              1 0 1 0).length
          ∧ nanLt0 ((trialDiff1 [1, 2, 3, 4, 5, 6] [1, 10, 10, 10, 10, 10] 0 10 (-99) 6
              1 0 0).getD i none) = true
          ∧ (trialDiff2 [1, 2, 3, 4, 5, 6] [1, 10, 10, 10, 10, 10] 0 10 (-99) 6
              1 0).getD i 1 < 0)
      ∧ ((calculate_threshold [1, 2, 3, 4, 5, 6] [1, 10, 10, 10, 10, 10] 1 0 10 (-99) 6
          1 0 1).2.1.getD 0 false = true →
        ∃ p, (List.zip
            ((trialSel2 [1, 2, 3, 4, 5, 6] [1, 10, 10, 10, 10, 10] 0 10 (-99) 6 0).map
              Prod.fst)
            (trialCR [1, 2, 3, 4, 5, 6] [1, 10, 10, 10, 10, 10] 0 10 (-99) 6
              1 0 1 0)).find? (fun x => x.2) = some p
          ∧ (calculate_threshold [1, 2, 3, 4, 5, 6] [1, 10, 10, 10, 10, 10] 1 0 10 (-99) 6
              1 0 1).2.2.getD 0 0 = p.1 - (0 + (0 : ℚ) * 10 + (-99)))) :=
  ⟨by norm_num,
    c5_crossing_detection [1, 2, 3, 4, 5, 6] [1, 10, 10, 10, 10, 10] 1 0 10 (-99) 6 1 0 1 0
      (by norm_num)⟩

/-- C10: `calculate_threshold` returns per-trial lists of length `trials`
for the logical results and reaction times, but a single threshold value:
the one computed in the last trial, `baseline * m1 + q` at trial index
`trials - 1`. -/
theorem c10_threshold_last_trial (times instf : List ℚ) (trials : ℕ)
    (settling_time sim_time MF_time IO_time m1 q m2 : ℚ) :
    (calculate_threshold times instf trials settling_time sim_time MF_time IO_time
        m1 q m2).2.1.length = trials
    ∧ (calculate_threshold times instf trials settling_time sim_time MF_time IO_time
        m1 q m2).2.2.length = trials
    ∧ (1 ≤ trials →
      (calculate_threshold times instf trials settling_time sim_time MF_time IO_time
          m1 q m2).1
        = (trialBaseline times instf settling_time sim_time MF_time (trials - 1)).map
            (fun b => b * m1 + q)) := by
  refine ⟨?_, ?_, ?_⟩
  · simp [calculate_threshold]
  · simp [calculate_threshold]
  · intro h
    simp only [calculate_threshold, List.map_map]
    rw [getLastD_map_range _ _ h]
    show (trialResult times instf settling_time sim_time MF_time IO_time m1 q m2
        (trials - 1)).1 = _
    rw [trialResult_fst, trialThreshold]

/-- C10 witness at a concrete input. -/
theorem c10_witness :
    (calculate_threshold [2] [5] 1 0 10 1 6 3 7 1).2.1.length = 1
    ∧ (calculate_threshold [2] [5] 1 0 10 1 6 3 7 1).2.2.length = 1
    ∧ (calculate_threshold [2] [5] 1 0 10 1 6 3 7 1).1
        = (trialBaseline [2] [5] 0 10 1 0).map (fun b => b * 3 + 7) :=
  have h := c10_threshold_last_trial [2] [5] 1 0 10 1 6 3 7 1
  ⟨h.1, h.2.1, h.2.2 (by norm_num)⟩
